import Mathlib

/-!
Verification of the portable-SIMD vector core (`crates/core_simd/src/vector.rs`):
the `Simd` vector type, its constructors and array conversions, and the
masked, bounds-checked gather/scatter engine.

Modelling conventions:
* A vector `Simd α n` is its array of lanes, `Fin n → α`, matching the
  `#[repr(simd)]` tuple struct `Simd<Element, LANES>([Element; LANES])`.
* `Mask n` models the external `Mask<isize, LANES>` type through the narrow
  contract the engine consumes: one boolean per lane, `splat`, lane-wise
  `&`, and `to_int` (all-ones / all-zeros wide-integer encoding).
* Memory is element-granular: a slice is a `List α`, its base address is 0,
  and an address is a `Nat` taken modulo `2 ^ 64` by the wrapping pointer
  arithmetic (usize/pointer width; the `size_of` byte scale factor of
  `ptr.rs` cancels in an element-granular address space).
* The masked load/store intrinsics are fallible: they return `none` exactly
  when a lane whose mask bit is set points outside the slice, which is the
  undefined-behavior case their safety contract excludes.  Totality of the
  public operations is therefore a provable safety property.
-/

/-- The SIMD vector of `n` lanes of type `α`: `Simd<Element, LANES>` is a
`repr(simd)` wrapper around `[Element; LANES]`. -/
structure Simd (α : Type) (n : Nat) where
  lanes : Fin n → α

namespace Simd

/-- `Simd::splat`: construct a SIMD vector by setting all lanes to the given value. -/
def splat (v : α) : Simd α n :=
  ⟨fun _ => v⟩

/-- `Simd::from_array`: converts an array to a SIMD vector. -/
def from_array (array : Fin n → α) : Simd α n :=
  ⟨array⟩

/-- `Simd::to_array`: converts a SIMD vector to an array. -/
def to_array (v : Simd α n) : Fin n → α :=
  v.lanes

/-- The lanes of a vector listed in lane order, a first-order view used to
state concrete results. -/
def toList (v : Simd α n) : List α :=
  (List.finRange n).map v.lanes

end Simd

/-- Modelled from the spec: the external mask type `Mask<isize, LANES>`
(its source is not in the slice under study), consumed only through
per-lane booleans, `splat`, lane-wise AND and the wide-int encoding. -/
structure Mask (n : Nat) where
  lanes : Fin n → Bool

namespace Mask

/-- `Mask::splat`: every lane set to the given boolean. -/
def splat (b : Bool) : Mask n :=
  ⟨fun _ => b⟩

/-- Lane-wise `&` on masks. -/
def and (a b : Mask n) : Mask n :=
  ⟨fun i => a.lanes i && b.lanes i⟩

/-- `Mask::to_int`: the wide-integer encoding the intrinsic layer expects,
all-one-bits (-1) for true and all-zero-bits (0) for false. -/
def toInt (m : Mask n) : Fin n → Int :=
  fun i => if m.lanes i then -1 else 0

end Mask

/-- Modelled from the spec: `Simd::<usize>::lanes_lt` (from the integer
vector module, not in the slice under study): lane-wise less-than
comparison producing a boolean-per-lane mask. -/
def Simd.lanes_lt (a b : Simd Nat n) : Mask n :=
  ⟨fun i => decide (a.lanes i < b.lanes i)⟩

/-- The pointer width: addresses are usize values, wrapping at `2 ^ 64`. -/
def ptrBits : Nat := 2 ^ 64

/-- Modelled from the spec: `SimdConstPtr` from `ptr.rs` (not in the slice
under study): a fixed-arity vector of raw (read) addresses. -/
structure SimdConstPtr (n : Nat) where
  addrs : Fin n → Nat

/-- `SimdConstPtr::splat`: every lane the same base address. -/
def SimdConstPtr.splat (base : Nat) : SimdConstPtr n :=
  ⟨fun _ => base⟩

/-- Modelled from the spec: `SimdConstPtr::wrapping_add`: wrapping per-lane
offset of the address vector by an index vector. -/
def SimdConstPtr.wrapping_add (p : SimdConstPtr n) (idxs : Simd Nat n) : SimdConstPtr n :=
  ⟨fun i => (p.addrs i + idxs.lanes i) % ptrBits⟩

/-- Modelled from the spec: `SimdMutPtr` from `ptr.rs` (not in the slice
under study): a fixed-arity vector of raw (write) addresses. -/
structure SimdMutPtr (n : Nat) where
  addrs : Fin n → Nat

/-- `SimdMutPtr::splat`: every lane the same base address. -/
def SimdMutPtr.splat (base : Nat) : SimdMutPtr n :=
  ⟨fun _ => base⟩

/-- Modelled from the spec: `SimdMutPtr::wrapping_add`: wrapping per-lane
offset of the address vector by an index vector. -/
def SimdMutPtr.wrapping_add (p : SimdMutPtr n) (idxs : Simd Nat n) : SimdMutPtr n :=
  ⟨fun i => (p.addrs i + idxs.lanes i) % ptrBits⟩

/-- The intrinsics' safety precondition, executable: every lane whose mask
bit is set (nonzero wide-int encoding) holds an address inside the memory
region of the given length. -/
def maskedInBounds (mask : Fin n → Int) (addrs : Fin n → Nat) (len : Nat) : Bool :=
  (List.finRange n).all fun i => decide (mask i = 0) || decide (addrs i < len)

/-- Modelled from the spec: the `simd_gather` masked-load intrinsic
(`intrinsics.rs` is not in the slice under study): for each lane whose
mask bit is set (nonzero wide-int encoding) it loads memory at that lane's
address, other lanes take the fallback.  Dereferencing an address outside
the memory region is undefined behavior, modelled as `none`. -/
def simd_gather (or : Simd α n) (ptrs : SimdConstPtr n) (mask : Fin n → Int)
    (mem : List α) : Option (Simd α n) :=
  if maskedInBounds mask ptrs.addrs mem.length then
    some ⟨fun i => if mask i ≠ 0 then
      -- The inner bounds test only packages the proof the guard already
      -- established: its else branch is unreachable when the guard holds.
      (if hb : ptrs.addrs i < mem.length then mem.get ⟨ptrs.addrs i, hb⟩ else or.lanes i)
    else or.lanes i⟩
  else
    none

/-- One ascending pass over the lanes starting at lane `i` with `fuel`
lanes still allowed: a lane whose mask bit is set stores its value at its
address.  Structural fuel keeps the recursion kernel-reducible; the callers
pass `fuel = n`. -/
def storeLanes (vals : Fin n → α) (ptrs : Fin n → Nat) (mask : Fin n → Int) :
    Nat → Nat → List α → List α
  | 0, _, m => m
  | fuel + 1, i, m =>
    if h : i < n then
      storeLanes vals ptrs mask fuel (i + 1)
        (if mask ⟨i, h⟩ ≠ 0 then m.set (ptrs ⟨i, h⟩) (vals ⟨i, h⟩) else m)
    else
      m

/-- Modelled from the spec: the `simd_scatter` masked-store intrinsic
(`intrinsics.rs` is not in the slice under study): lanes are processed in
ascending lane order; each lane whose mask bit is set stores its value at
its address, so for duplicate addresses the last (highest-indexed) masked
lane wins.  Storing through an address outside the memory region is
undefined behavior, modelled as `none`. -/
def simd_scatter (vals : Simd α n) (ptrs : SimdMutPtr n) (mask : Fin n → Int)
    (mem : List α) : Option (List α) :=
  if maskedInBounds mask ptrs.addrs mem.length then
    some (storeLanes vals.lanes ptrs.addrs mask n 0 mem)
  else
    none

namespace Simd

/-- `Simd::gather_select`: read from a slice at potentially discontiguous
indices; out-of-bounds or masked-off lanes select the `or` lane instead.
The effective mask is the caller mask ANDed with the in-bounds comparison,
computed before the pointer vector is formed. -/
def gather_select (slice : List α) (mask : Mask n) (idxs : Simd Nat n)
    (or : Simd α n) : Option (Simd α n) :=
  let mask := (mask.and (idxs.lanes_lt (Simd.splat slice.length))).toInt
  let base_ptr := SimdConstPtr.splat 0
  let ptrs := base_ptr.wrapping_add idxs
  simd_gather or ptrs mask slice

/-- `Simd::gather_or`: gather with an all-true caller mask; if an index is
out of bounds that lane selects the value from the `or` vector. -/
def gather_or (slice : List α) (idxs : Simd Nat n) (or : Simd α n) :
    Option (Simd α n) :=
  gather_select slice (Mask.splat true) idxs or

/-- `Simd::gather_or_default`: gather where out-of-bounds indices use the
element type's default value for that lane. -/
def gather_or_default [Inhabited α] (slice : List α) (idxs : Simd Nat n) :
    Option (Simd α n) :=
  gather_or slice idxs (Simd.splat default)

/-- `Simd::scatter_select`: write the vector's lanes into a slice at
potentially discontiguous indices; out-of-bounds or masked-off lanes are
not written.  The effective mask is constructed before the mutable base
pointer is derived. -/
def scatter_select (self : Simd α n) (slice : List α) (mask : Mask n)
    (idxs : Simd Nat n) : Option (List α) :=
  let mask := (mask.and (idxs.lanes_lt (Simd.splat slice.length))).toInt
  let base_ptr := SimdMutPtr.splat 0
  let ptrs := base_ptr.wrapping_add idxs
  simd_scatter self ptrs mask slice

/-- `Simd::scatter`: scatter with an all-true caller mask; out-of-bounds
lanes are dropped, duplicate indices resolve to the last write. -/
def scatter (self : Simd α n) (slice : List α) (idxs : Simd Nat n) :
    Option (List α) :=
  self.scatter_select slice (Mask.splat true) idxs

end Simd

/-- The `impl Default for Simd`: `Self::splat(Element::default())`. -/
instance [Inhabited α] : Inhabited (Simd α n) :=
  ⟨Simd.splat default⟩

/-- A lane survives a scatter when its caller-mask bit is true and its
index is in bounds for the destination slice. -/
def surviving (mask : Mask n) (idxs : Simd Nat n) (len : Nat) (i : Fin n) : Prop :=
  mask.lanes i = true ∧ idxs.lanes i < len

instance (mask : Mask n) (idxs : Simd Nat n) (len : Nat) (i : Fin n) :
    Decidable (surviving mask idxs len i) :=
  inferInstanceAs (Decidable (_ ∧ _))

/-- Lane-indexed universal statements are decided by scanning the lane
list, so that concrete instances evaluate by kernel reduction. -/
instance decidableForallFinRange (p : Fin n → Prop) [DecidablePred p] : Decidable (∀ i, p i) :=
  decidable_of_iff ((List.finRange n).all fun i => decide (p i))
    (by simp only [List.all_eq_true, List.mem_finRange, true_implies, decide_eq_true_eq])

/-- Concrete inputs, from the documented examples of `vector.rs`. -/
def sampleSlice : List Int := [10, 11, 12, 13, 14, 15, 16, 17, 18]

def sampleIdxs : Simd Nat 4 := ⟨![9, 3, 0, 5]⟩

def sampleScatterIdxs : Simd Nat 4 := ⟨![9, 3, 0, 0]⟩

def sampleVals : Simd Int 4 := ⟨![-27, 82, -41, 124]⟩

def sampleOr : Simd Int 4 := ⟨![-5, -4, -3, -2]⟩

def sampleMask : Mask 4 := ⟨![true, true, true, false]⟩

def sampleMask2 : Mask 4 := ⟨![true, true, false, false]⟩

/-- The result of scattering `sampleVals` into `sampleSlice` under
`sampleMask2` at `sampleScatterIdxs`: only lane 1 survives. -/
def sampleScatterOut : List Int := [10, 11, 12, 82, 14, 15, 16, 17, 18]

theorem maskedInBounds_iff (mask : Fin n → Int) (addrs : Fin n → Nat) (len : Nat) :
    maskedInBounds mask addrs len = true ↔ ∀ i, mask i ≠ 0 → addrs i < len := by
  simp only [maskedInBounds, List.all_eq_true, List.mem_finRange, true_implies,
    Bool.or_eq_true, decide_eq_true_eq]
  exact forall_congr' fun i => or_iff_not_imp_left

theorem storeLanes_length (vals : Fin n → α) (ptrs : Fin n → Nat) (mask : Fin n → Int) :
    ∀ (fuel i : Nat) (m : List α), (storeLanes vals ptrs mask fuel i m).length = m.length := by
  intro fuel
  induction fuel with
  | zero => intro i m; rfl
  | succ fuel ih =>
    intro i m
    simp only [storeLanes]
    split
    · rw [ih]
      split <;> simp
    · rfl

theorem storeLanes_frame (vals : Fin n → α) (ptrs : Fin n → Nat) (mask : Fin n → Int) :
    ∀ (fuel i : Nat) (m : List α) (a : Nat),
      (∀ k : Fin n, i ≤ k.val → mask k ≠ 0 → ptrs k ≠ a) →
      (storeLanes vals ptrs mask fuel i m)[a]? = m[a]? := by
  intro fuel
  induction fuel with
  | zero => intro i m a _; rfl
  | succ fuel ih =>
    intro i m a hk
    simp only [storeLanes]
    split
    · next h =>
      rw [ih (i + 1) _ a fun k hik => hk k (Nat.le_of_succ_le hik)]
      split
      · next hm => exact List.getElem?_set_ne (hk ⟨i, h⟩ (Nat.le_refl i) hm)
      · rfl
    · rfl

theorem storeLanes_last (vals : Fin n → α) (ptrs : Fin n → Nat) (mask : Fin n → Int) :
    ∀ (fuel i : Nat) (m : List α) (a : Nat) (j : Fin n),
      i ≤ j.val → n ≤ fuel + i → mask j ≠ 0 → ptrs j = a → a < m.length →
      (∀ k : Fin n, j < k → mask k ≠ 0 → ptrs k ≠ a) →
      (storeLanes vals ptrs mask fuel i m)[a]? = some (vals j) := by
  intro fuel
  induction fuel with
  | zero =>
    intro i m a j hij hfuel
    exact absurd (Nat.lt_of_le_of_lt hij j.isLt) (by omega)
  | succ fuel ih =>
    intro i m a j hij hfuel hmj hpj ha hlater
    have hin : i < n := Nat.lt_of_le_of_lt hij j.isLt
    simp only [storeLanes]
    rw [dif_pos hin]
    rcases Nat.eq_or_lt_of_le hij with heq | hlt
    · have hj : (⟨i, hin⟩ : Fin n) = j := Fin.ext heq
      rw [hj, if_pos hmj, hpj]
      rw [storeLanes_frame vals ptrs mask fuel (i + 1) _ a]
      · exact List.getElem?_set_eq_of_lt _ ha
      · intro k hik hmk
        exact hlater k (by omega) hmk
    · rw [ih (i + 1) _ a j hlt (by omega) hmj hpj _ hlater]
      split <;> simpa using ha

theorem effectiveMask_ne_zero (mask : Mask n) (idxs : Simd Nat n) (len : Nat) (i : Fin n) :
    (mask.and (idxs.lanes_lt (Simd.splat len))).toInt i ≠ 0 ↔
      mask.lanes i = true ∧ idxs.lanes i < len := by
  simp only [Mask.and, Mask.toInt, Simd.lanes_lt, Simd.splat]
  split
  · next h =>
    simp only [Bool.and_eq_true, decide_eq_true_eq] at h
    simp [h]
  · next h =>
    simp only [Bool.and_eq_true, decide_eq_true_eq] at h
    simp [h]

theorem constPtr_addr (idxs : Simd Nat n) (i : Fin n) (h64 : idxs.lanes i < 2 ^ 64) :
    ((SimdConstPtr.splat 0).wrapping_add idxs).addrs i = idxs.lanes i := by
  have : idxs.lanes i < ptrBits := h64
  simp [SimdConstPtr.splat, SimdConstPtr.wrapping_add, Nat.mod_eq_of_lt this]

theorem mutPtr_addr (idxs : Simd Nat n) (i : Fin n) (h64 : idxs.lanes i < 2 ^ 64) :
    ((SimdMutPtr.splat 0).wrapping_add idxs).addrs i = idxs.lanes i := by
  have : idxs.lanes i < ptrBits := h64
  simp [SimdMutPtr.splat, SimdMutPtr.wrapping_add, Nat.mod_eq_of_lt this]

theorem effective_guard_const (mask : Mask n) (idxs : Simd Nat n) (len : Nat) :
    maskedInBounds ((mask.and (idxs.lanes_lt (Simd.splat len))).toInt)
      ((SimdConstPtr.splat 0).wrapping_add idxs).addrs len = true := by
  rw [maskedInBounds_iff]
  intro i hi
  rw [effectiveMask_ne_zero] at hi
  calc ((SimdConstPtr.splat 0).wrapping_add idxs).addrs i
      ≤ idxs.lanes i := by
        simp only [SimdConstPtr.splat, SimdConstPtr.wrapping_add, Nat.zero_add]
        exact Nat.mod_le _ _
    _ < len := hi.2

theorem effective_guard_mut (mask : Mask n) (idxs : Simd Nat n) (len : Nat) :
    maskedInBounds ((mask.and (idxs.lanes_lt (Simd.splat len))).toInt)
      ((SimdMutPtr.splat 0).wrapping_add idxs).addrs len = true := by
  rw [maskedInBounds_iff]
  intro i hi
  rw [effectiveMask_ne_zero] at hi
  calc ((SimdMutPtr.splat 0).wrapping_add idxs).addrs i
      ≤ idxs.lanes i := by
        simp only [SimdMutPtr.splat, SimdMutPtr.wrapping_add, Nat.zero_add]
        exact Nat.mod_le _ _
    _ < len := hi.2

theorem scatter_select_eq_storeLanes (vals : Simd α n) (slice : List α) (mask : Mask n)
    (idxs : Simd Nat n) :
    vals.scatter_select slice mask idxs =
      some (storeLanes vals.lanes ((SimdMutPtr.splat 0).wrapping_add idxs).addrs
        ((mask.and (idxs.lanes_lt (Simd.splat slice.length))).toInt) n 0 slice) := by
  unfold Simd.scatter_select simd_scatter
  rw [if_pos (effective_guard_mut mask idxs slice.length)]

theorem gather_select_spec (slice : List α) (mask : Mask n) (idxs : Simd Nat n)
    (or : Simd α n) (h64 : ∀ i, idxs.lanes i < 2 ^ 64) :
    ∃ r, Simd.gather_select slice mask idxs or = some r ∧
      ∀ i, (mask.lanes i = true ∧ idxs.lanes i < slice.length →
              slice[idxs.lanes i]? = some (r.lanes i)) ∧
           (¬(mask.lanes i = true ∧ idxs.lanes i < slice.length) →
              r.lanes i = or.lanes i) := by
  unfold Simd.gather_select simd_gather
  rw [if_pos (effective_guard_const mask idxs slice.length)]
  refine ⟨_, rfl, fun i => ⟨fun h => ?_, fun h => ?_⟩⟩
  · dsimp only
    rw [if_pos ((effectiveMask_ne_zero mask idxs slice.length i).mpr h)]
    have ha := constPtr_addr idxs i (h64 i)
    have hb : ((SimdConstPtr.splat 0).wrapping_add idxs).addrs i < slice.length := by
      rw [ha]; exact h.2
    rw [dif_pos hb, List.get_eq_getElem, ← List.getElem?_eq_getElem]
    exact (congrArg (fun k => slice[k]?) ha).symm
  · dsimp only
    rw [if_neg]
    intro hc
    exact h ((effectiveMask_ne_zero mask idxs slice.length i).mp hc)

theorem scatter_select_frame (vals : Simd α n) (slice : List α) (mask : Mask n)
    (idxs : Simd Nat n) (a : Nat) (h64 : ∀ i, idxs.lanes i < 2 ^ 64)
    (hnt : ∀ i, surviving mask idxs slice.length i → idxs.lanes i ≠ a) :
    ∀ out, vals.scatter_select slice mask idxs = some out →
      out.length = slice.length ∧ out[a]? = slice[a]? := by
  intro out hout
  rw [scatter_select_eq_storeLanes] at hout
  cases hout
  constructor
  · exact storeLanes_length _ _ _ n 0 slice
  · apply storeLanes_frame
    intro k _ hmk
    rw [mutPtr_addr idxs k (h64 k)]
    exact hnt k ((effectiveMask_ne_zero mask idxs slice.length k).mp hmk)

theorem scatter_select_last_write (vals : Simd α n) (slice : List α) (mask : Mask n)
    (idxs : Simd Nat n) (j : Fin n) (a : Nat) (h64 : ∀ i, idxs.lanes i < 2 ^ 64)
    (hsurv : surviving mask idxs slice.length j) (hja : idxs.lanes j = a)
    (hlast : ∀ k, j < k → surviving mask idxs slice.length k → idxs.lanes k ≠ a) :
    ∀ out, vals.scatter_select slice mask idxs = some out →
      out[a]? = some (vals.lanes j) := by
  intro out hout
  rw [scatter_select_eq_storeLanes] at hout
  cases hout
  apply storeLanes_last vals.lanes _ _ n 0 slice a j (Nat.zero_le _) (Nat.le_refl n)
  · exact (effectiveMask_ne_zero mask idxs slice.length j).mpr hsurv
  · rw [mutPtr_addr idxs j (h64 j)]
    exact hja
  · exact hja ▸ hsurv.2
  · intro k hk hmk
    rw [mutPtr_addr idxs k (h64 k)]
    exact hlast k hk ((effectiveMask_ne_zero mask idxs slice.length k).mp hmk)

/-- C1: for every slice, caller mask, index vector and fallback vector,
`gather_select` succeeds and lane `i` of its result is `slice[idxs[i]]`
when `mask[i]` is true and `idxs[i] < slice.len()`, and `or[i]` otherwise;
in particular a false mask lane yields `or[i]` regardless of the index. -/
theorem gather_select_lane_semantics (slice : List α) (mask : Mask n) (idxs : Simd Nat n)
    (or : Simd α n) (h64 : ∀ i, idxs.lanes i < 2 ^ 64) :
    ∃ r, Simd.gather_select slice mask idxs or = some r ∧
      ∀ i, (mask.lanes i = true ∧ idxs.lanes i < slice.length →
              slice[idxs.lanes i]? = some (r.lanes i)) ∧
           (¬(mask.lanes i = true ∧ idxs.lanes i < slice.length) →
              r.lanes i = or.lanes i) :=
  gather_select_spec slice mask idxs or h64

theorem gather_select_lane_semantics_witness :
    ∃ r, Simd.gather_select sampleSlice sampleMask sampleIdxs sampleOr = some r ∧
      ∀ i, (sampleMask.lanes i = true ∧ sampleIdxs.lanes i < sampleSlice.length →
              sampleSlice[sampleIdxs.lanes i]? = some (r.lanes i)) ∧
           (¬(sampleMask.lanes i = true ∧ sampleIdxs.lanes i < sampleSlice.length) →
              r.lanes i = sampleOr.lanes i) :=
  gather_select_lane_semantics sampleSlice sampleMask sampleIdxs sampleOr (by decide)

/-- C2: when several surviving lanes (in bounds, and masked true for the
`_select` variant) target the same index, the value finally stored there is
the one from the highest-indexed surviving lane, lanes being processed in
ascending lane order. -/
theorem scatter_duplicate_last_lane_wins (vals : Simd α n) (slice : List α) (mask : Mask n)
    (idxs : Simd Nat n) (j : Fin n) (a : Nat) (h64 : ∀ i, idxs.lanes i < 2 ^ 64)
    (hsurv : surviving mask idxs slice.length j) (hja : idxs.lanes j = a)
    (hlast : ∀ k, j < k → surviving mask idxs slice.length k → idxs.lanes k ≠ a) :
    (∀ out, vals.scatter_select slice mask idxs = some out →
        out[a]? = some (vals.lanes j)) ∧
    (mask = Mask.splat true →
      ∀ out, vals.scatter slice idxs = some out → out[a]? = some (vals.lanes j)) := by
  have main := scatter_select_last_write vals slice mask idxs j a h64 hsurv hja hlast
  exact ⟨main, fun hm out hout => main out (by rw [hm]; exact hout)⟩

theorem scatter_duplicate_last_lane_wins_witness :
    (∀ out, sampleVals.scatter_select sampleSlice (Mask.splat true) sampleScatterIdxs
        = some out → out[0]? = some (sampleVals.lanes 3)) ∧
    ((Mask.splat true : Mask 4) = Mask.splat true →
      ∀ out, sampleVals.scatter sampleSlice sampleScatterIdxs = some out →
        out[0]? = some (sampleVals.lanes 3)) :=
  scatter_duplicate_last_lane_wins sampleVals sampleSlice (Mask.splat true) sampleScatterIdxs
    3 0 (by decide) (by decide) (by decide) (by decide)

/-- C3: the effective mask (caller mask AND in-bounds comparison) is
finalized before any address is dereferenced, so neither gather nor scatter
ever reads or writes the slice out of bounds: the masked intrinsics' safety
precondition always holds and the operations always succeed, whatever the
indices. -/
theorem gather_scatter_never_deref_oob (slice : List α) (mask : Mask n)
    (idxs : Simd Nat n) (or vals : Simd α n) :
    (Simd.gather_select slice mask idxs or).isSome = true ∧
    (vals.scatter_select slice mask idxs).isSome = true := by
  constructor
  · unfold Simd.gather_select simd_gather
    rw [if_pos (effective_guard_const mask idxs slice.length)]
    rfl
  · rw [scatter_select_eq_storeLanes]
    rfl

/-- C4: `gather_or` succeeds, lane `i` of its result is `slice[idxs[i]]`
when `idxs[i] < slice.len()` and `or[i]` when `idxs[i] >= slice.len()`. -/
theorem gather_or_bounds_substitution (slice : List α) (idxs : Simd Nat n) (or : Simd α n)
    (h64 : ∀ i, idxs.lanes i < 2 ^ 64) :
    ∃ r, Simd.gather_or slice idxs or = some r ∧
      ∀ i, (idxs.lanes i < slice.length → slice[idxs.lanes i]? = some (r.lanes i)) ∧
           (slice.length ≤ idxs.lanes i → r.lanes i = or.lanes i) := by
  obtain ⟨r, hr, hlanes⟩ := gather_select_spec slice (Mask.splat true) idxs or h64
  refine ⟨r, hr, fun i => ⟨fun h => (hlanes i).1 ⟨rfl, h⟩, fun h => (hlanes i).2 ?_⟩⟩
  intro hc
  exact absurd hc.2 (Nat.not_lt.mpr h)

theorem gather_or_bounds_substitution_witness :
    ∃ r, Simd.gather_or sampleSlice sampleIdxs sampleOr = some r ∧
      ∀ i, (sampleIdxs.lanes i < sampleSlice.length →
              sampleSlice[sampleIdxs.lanes i]? = some (r.lanes i)) ∧
           (sampleSlice.length ≤ sampleIdxs.lanes i → r.lanes i = sampleOr.lanes i) :=
  gather_or_bounds_substitution sampleSlice sampleIdxs sampleOr (by decide)

/-- C5: scatter and scatter_select never mutate the slice on account of an
out-of-bounds lane: the slice keeps its length, and every position not
targeted by a surviving (in-bounds and masked-true) lane is unchanged. -/
theorem scatter_oob_noop_frame (vals : Simd α n) (slice : List α) (mask : Mask n)
    (idxs : Simd Nat n) (a : Nat) (h64 : ∀ i, idxs.lanes i < 2 ^ 64)
    (hnt : ∀ i, surviving mask idxs slice.length i → idxs.lanes i ≠ a) :
    (∀ out, vals.scatter_select slice mask idxs = some out →
        out.length = slice.length ∧ out[a]? = slice[a]?) ∧
    (mask = Mask.splat true →
      ∀ out, vals.scatter slice idxs = some out →
        out.length = slice.length ∧ out[a]? = slice[a]?) := by
  have main := scatter_select_frame vals slice mask idxs a h64 hnt
  exact ⟨main, fun hm out hout => main out (by rw [hm]; exact hout)⟩

theorem scatter_oob_noop_frame_witness :
    (∀ out, sampleVals.scatter_select sampleSlice sampleMask sampleScatterIdxs = some out →
        out.length = sampleSlice.length ∧ out[5]? = sampleSlice[5]?) ∧
    (sampleMask = Mask.splat true →
      ∀ out, sampleVals.scatter sampleSlice sampleScatterIdxs = some out →
        out.length = sampleSlice.length ∧ out[5]? = sampleSlice[5]?) :=
  scatter_oob_noop_frame sampleVals sampleSlice sampleMask sampleScatterIdxs 5
    (by decide) (by decide)

/-- C6: a masked-off lane of `scatter_select` performs no write: the slice
element at that lane's index keeps its pre-call value whenever no surviving
lane targets the same index. -/
theorem scatter_select_masked_lane_preserved (vals : Simd α n) (slice : List α)
    (mask : Mask n) (idxs : Simd Nat n) (j : Fin n)
    (h64 : ∀ i, idxs.lanes i < 2 ^ 64) (_hmj : mask.lanes j = false)
    (hno : ∀ k, surviving mask idxs slice.length k → idxs.lanes k ≠ idxs.lanes j) :
    ∀ out, vals.scatter_select slice mask idxs = some out →
      out[idxs.lanes j]? = slice[idxs.lanes j]? :=
  fun out hout =>
    (scatter_select_frame vals slice mask idxs (idxs.lanes j) h64 hno out hout).2

theorem scatter_select_masked_lane_preserved_witness :
    sampleScatterOut[sampleScatterIdxs.lanes 3]? = sampleSlice[sampleScatterIdxs.lanes 3]? :=
  scatter_select_masked_lane_preserved sampleVals sampleSlice sampleMask2 sampleScatterIdxs
    3 (by decide) (by decide) (by decide) sampleScatterOut (by decide)

/-- C7: `gather_or` is `gather_select` with an all-true mask, and `scatter`
is `scatter_select` with an all-true mask. -/
theorem gather_scatter_all_true_mask_equiv (slice : List α) (idxs : Simd Nat n)
    (or vals : Simd α n) (dest : List α) :
    Simd.gather_or slice idxs or = Simd.gather_select slice (Mask.splat true) idxs or ∧
    vals.scatter dest idxs = vals.scatter_select dest (Mask.splat true) idxs :=
  ⟨rfl, rfl⟩

/-- C8: `gather_or_default` is `gather_or` with the all-lanes-default
fallback vector; on the slice `[10, ..., 18]` with indices `[9, 3, 0, 5]`
its lanes are `[0, 13, 10, 15]`. -/
theorem gather_or_default_splat_default [Inhabited α] (slice : List α) (idxs : Simd Nat n) :
    Simd.gather_or_default slice idxs = Simd.gather_or slice idxs (Simd.splat default) ∧
    (Simd.gather_or_default sampleSlice sampleIdxs).map Simd.toList
      = some [0, 13, 10, 15] :=
  ⟨rfl, by decide⟩

/-- C9: converting an array to a vector and back is the identity, and every
lane of `splat v` is `v`. -/
theorem round_trip_and_splat_lanes (a : Fin n → α) (v : α) :
    (Simd.from_array a).to_array = a ∧ ∀ i, (Simd.splat v : Simd α n).to_array i = v :=
  ⟨rfl, fun _ => rfl⟩

/-- C10: the Default instance of the vector type is the splat of the
element type's default value. -/
theorem default_eq_splat_default (α : Type) [Inhabited α] (n : Nat) :
    (default : Simd α n) = Simd.splat (default : α) :=
  rfl
